import Mathlib

/-!
Shallow embedding of the query compiler and in-memory aggregation engine of the
Firestore Grafana datasource plugin (pkg/plugin/datasource.go), together with
proofs about the claims of its specification.

Modelling conventions:
* Go strings are modelled as Lean `String`s and indexed by characters; the Go
  code indexes by bytes, which coincides for ASCII queries (queries are SQL
  text, field names and plain values).
* Go `interface{}` document values are the inductive `GoValue`; `float64` is
  modelled as `ℚ` (the claims under study do not depend on binary rounding).
* Go's `fmt.Sprintf("%v", x)` is `goFormat`; for rationals with denominator 1
  it renders the integer exactly as Go renders an integral float64; other
  rationals get a definite (num/den) rendering standing in for Go's shortest
  decimal form, and nested maps are rendered in stored entry order (Go sorts
  keys); no theorem below depends on those two renderings.
* Functions that Go can only exit via a slice-bounds panic are modelled in
  `Except ParseFault`, where `ParseFault.outOfRange` is the recovered panic.
-/

set_option maxRecDepth 40000

/-- Index (character based) of the first occurrence of `needle` in the list,
mirroring Go `strings.Index`; `none` mirrors Go's `-1`. -/
def subIndex (needle : List Char) : List Char → Nat → Option Nat
  | [], i => if needle.isPrefixOf [] then some i else none
  | c :: rest, i =>
    if needle.isPrefixOf (c :: rest) then some i else subIndex needle rest (i + 1)

/-- Go `strings.Index` on strings (first occurrence, `none` for Go's `-1`). -/
def goIndex (s sub : String) : Option Nat := subIndex sub.data s.data 0

/-- Go `strings.Contains`. -/
def goContains (s sub : String) : Bool := (goIndex s sub).isSome

/-- Go `strings.ToLower` (ASCII case folding). -/
def goToLower (s : String) : String := String.mk (s.data.map Char.toLower)

/-- Go `strings.ToUpper` (ASCII case folding). -/
def goToUpper (s : String) : String := String.mk (s.data.map Char.toUpper)

/-- Go `strings.HasPrefix`. -/
def goHasPre (s sub : String) : Bool := sub.data.isPrefixOf s.data

/-- Drop elements of `cutset` from both ends of a character list. -/
def trimCutset (cutset : List Char) (l : List Char) : List Char :=
  ((l.dropWhile (· ∈ cutset)).reverse.dropWhile (· ∈ cutset)).reverse

/-- Go `strings.TrimSpace` (ASCII whitespace). -/
def goTrimSpace (s : String) : String :=
  String.mk (trimCutset [' ', '\t', '\n', '\r'] s.data)

/-- Go `strings.Trim` with an explicit cutset of characters. -/
def goTrim (s : String) (cutset : List Char) : String :=
  String.mk (trimCutset cutset s.data)

/-- Substring `s[a:b]` of a Go string, assuming the bounds are in range. -/
def goSub (s : String) (a b : Nat) : String := String.mk ((s.data.drop a).take (b - a))

/-- Go slice expression `s[a:b]`: `none` models the slice-bounds panic raised
when `a > b` or `b > len(s)`. -/
def goSlice (s : String) (a b : Nat) : Option String :=
  if a ≤ b ∧ b ≤ s.data.length then some (goSub s a b) else none

/-- Splitting engine for Go `strings.Split` with a non-empty separator; `fuel`
bounds the recursion and is always sufficient at `s.length + 1`. -/
def goSplitAux (sep : List Char) : Nat → List Char → List (List Char)
  | 0, s => [s]
  | fuel + 1, s =>
    match subIndex sep s 0 with
    | none => [s]
    | some i => s.take i :: goSplitAux sep fuel (s.drop (i + sep.length))

/-- Go `strings.Split` (the code only ever passes non-empty separators). -/
def goSplit (s sep : String) : List String :=
  (goSplitAux sep.data (s.data.length + 1) s.data).map String.mk

/-- Go `strings.SplitN(s, sep, 2)`: split at the first occurrence only. -/
def goSplitN2 (s sep : String) : List String :=
  match goIndex s sep with
  | none => [s]
  | some i => [goSub s 0 i, goSub s (i + sep.data.length) s.data.length]

/-- Word accumulator for Go `strings.Fields`. -/
def goFieldsAux : List Char → List Char → List String
  | [], acc => if acc.isEmpty then [] else [String.mk acc.reverse]
  | c :: rest, acc =>
    if c = ' ' ∨ c = '\t' ∨ c = '\n' ∨ c = '\r' then
      if acc.isEmpty then goFieldsAux rest [] else String.mk acc.reverse :: goFieldsAux rest []
    else goFieldsAux rest (c :: acc)

/-- Go `strings.Fields`: maximal runs of non-whitespace characters. -/
def goFields (s : String) : List String := goFieldsAux s.data []

/-- Go `strings.Join` with separator `sep`. -/
def goJoin (sep : String) : List String → String
  | [] => ""
  | [s] => s
  | s :: t :: rest => s ++ sep ++ goJoin sep (t :: rest)

/-- Numeric value of a non-empty all-digit character list, else `none`. -/
def digitsVal : List Char → Option Nat
  | [] => none
  | l => l.foldl (fun acc c => acc.bind fun n =>
      if c.isDigit then some (n * 10 + (c.toNat - 48)) else none) (some 0)

/-- Go `strconv.Atoi`: optional sign followed by digits (the 64-bit range check
is abstracted away; no query in scope overflows it). -/
def goAtoi (s : String) : Option Int :=
  match s.data with
  | '+' :: rest => (digitsVal rest).map Int.ofNat
  | '-' :: rest => (digitsVal rest).map fun n => -(n : Int)
  | l => (digitsVal l).map Int.ofNat

/-- Mantissa/exponent reader for `parseGoFloat`: digits, optional dot with
further digits, and an optional decimal exponent. -/
def floatParts (l : List Char) : Option (List Char × List Char × Option (Bool × List Char)) :=
  let intPart := l.takeWhile Char.isDigit
  let rest1 := l.dropWhile Char.isDigit
  match rest1 with
  | '.' :: rest2 =>
    let fracPart := rest2.takeWhile Char.isDigit
    let rest3 := rest2.dropWhile Char.isDigit
    match rest3 with
    | [] => some (intPart, fracPart, none)
    | 'e' :: rest4 => (expParts rest4).map fun e => (intPart, fracPart, some e)
    | 'E' :: rest4 => (expParts rest4).map fun e => (intPart, fracPart, some e)
    | _ => none
  | [] => some (intPart, [], none)
  | 'e' :: rest4 => (expParts rest4).map fun e => (intPart, [], some e)
  | 'E' :: rest4 => (expParts rest4).map fun e => (intPart, [], some e)
  | _ => none
where
  /-- Exponent reader: optional sign then mandatory digits consuming the rest. -/
  expParts (l : List Char) : Option (Bool × List Char) :=
    match l with
    | '+' :: d => if d ≠ [] ∧ d.all Char.isDigit then some (false, d) else none
    | '-' :: d => if d ≠ [] ∧ d.all Char.isDigit then some (true, d) else none
    | d => if d ≠ [] ∧ d.all Char.isDigit then some (false, d) else none

/-- Digit-list value used by `parseGoFloat` (empty list reads as 0). -/
def digitsNat (l : List Char) : Nat := l.foldl (fun acc c => acc * 10 + (c.toNat - 48)) 0

/-- Go `strconv.ParseFloat(s, 64)` restricted to finite decimal syntax
(`[+-]?digits[.digits][eE[+-]digits]`); hexadecimal floats, `Inf` and `NaN`
inputs are outside the model. Results are exact rationals. -/
def parseGoFloat (s : String) : Option ℚ :=
  let (neg, body) :=
    match s.data with
    | '+' :: rest => (false, rest)
    | '-' :: rest => (true, rest)
    | l => (false, l)
  match floatParts body with
  | none => none
  | some (ip, fp, expo) =>
    if ip = [] ∧ fp = [] then none
    else
      let base : ℚ := (digitsNat (ip ++ fp) : ℚ) / ((10 : ℚ) ^ fp.length)
      let scaled : ℚ :=
        match expo with
        | none => base
        | some (eneg, ed) =>
          if eneg then base / ((10 : ℚ) ^ digitsNat ed) else base * ((10 : ℚ) ^ digitsNat ed)
      some (if neg then -scaled else scaled)

/-- Dynamically-typed document value (Go `interface{}`); `null` is the Go nil
interface, nested documents are `mapV`, and `float64` is carried as `ℚ`. -/
inductive GoValue where
  | null
  | boolV (b : Bool)
  | intV (n : Int)
  | floatV (q : ℚ)
  | strV (s : String)
  | mapV (entries : List (String × GoValue))

/-- A Firestore document body: Go `map[string]interface{}`, modelled as an
association list whose first binding of a key is the map entry. -/
abbrev GoDoc := List (String × GoValue)

/-- Go map read `doc[k]`: the bound value, or the nil interface when absent. -/
def docLookup (doc : GoDoc) (k : String) : GoValue :=
  match doc.find? (fun e => e.1 = k) with
  | some e => e.2
  | none => .null

mutual
/-- Go `fmt.Sprintf("%v", v)` on document values. Integral floats render like
Go (`7.0` prints as `7`); non-integral rationals get a definite num/den
rendering in place of Go's shortest-decimal form, and map entries are rendered
in stored order where Go sorts keys — no theorem depends on either rendering. -/
def goFormat : GoValue → String
  | .null => "<nil>"
  | .boolV b => if b then "true" else "false"
  | .intV n => toString n
  | .floatV q => if q.den = 1 then toString q.num else toString q.num ++ "/" ++ toString q.den
  | .strV s => s
  | .mapV l => "map[" ++ goFormatEntries l ++ "]"
/-- Space-separated `key:value` rendering of map entries for `goFormat`. -/
def goFormatEntries : List (String × GoValue) → String
  | [] => ""
  | [(k, v)] => k ++ ":" ++ goFormat v
  | (k, v) :: e :: rest => k ++ ":" ++ goFormat v ++ " " ++ goFormatEntries (e :: rest)
end

/-- Descend through nested mappings along the split dotted path
(`getNestedFieldValue`'s loop): every part but the last must resolve to a
nested mapping, the last part is read in the innermost mapping. -/
def getNestedParts : GoDoc → List String → GoValue
  | _, [] => .null
  | doc, [p] => docLookup doc p
  | doc, p :: q :: rest =>
    match docLookup doc p with
    | .mapV next => getNestedParts next (q :: rest)
    | _ => .null

/-- Go `getNestedFieldValue`: direct map read for plain field names, dotted
paths split on `.` and resolved by descending through nested mappings; a
missing key or non-mapping intermediate yields the nil interface. -/
def getNestedFieldValue (doc : GoDoc) (fieldPath : String) : GoValue :=
  if goContains fieldPath "." then getNestedParts doc (goSplit fieldPath ".")
  else docLookup doc fieldPath

/-- Go `convertToFloat`: numeric types pass through, strings go through
`strconv.ParseFloat`, everything else fails. `intV` stands for Go's
`int`/`int32`/`int64` cases and `floatV` for `float32`/`float64`. -/
def convertToFloat : GoValue → Option ℚ
  | .floatV q => some q
  | .intV n => some (n : ℚ)
  | .strV s => parseGoFloat s
  | _ => none

example : goIndex "select x from y" " from " = some 8 := by decide
example : goIndex "abc" "zz" = none := by decide
example : goSplit "a AND b AND c" " AND " = ["a", "b", "c"] := by decide
example : goFields "  total   DESC " = ["total", "DESC"] := by decide
example : goTrimSpace "  hi \n" = "hi" := by decide
example : goAtoi "-42" = some (-42) := by decide
example : goAtoi "4x" = none := by decide
example : (parseGoFloat "12.5").isSome = true := by decide
example : (parseGoFloat "1e2").isSome = true := by decide
example : parseGoFloat "" = none := by decide
example : parseGoFloat "abc" = none := by decide
example : goFormat (.mapV [("a", .intV 1), ("b", .strV "x")]) = "map[a:1 b:x]" := rfl
example : getNestedFieldValue [("a", .mapV [("b", .intV 3)])] "a.b" = .intV 3 := rfl
example : goFormat (getNestedFieldValue [("a", .intV 7)] "zz") = "<nil>" := rfl

/-- WHERE-clause filter (Go `FilterInfo`); parsing normalizes `=` to `==`. -/
structure FilterInfo where
  field : String
  operator : String
  value : GoValue

/-- Aggregate SELECT item (Go `AggregateInfo`): function name, target field
and alias (the raw source expression when no `AS` clause is present). -/
structure AggregateInfo where
  function : String
  field : String
  aliasName : String

/-- Parsed query plan (Go `QueryInfo`); Go zero values are the empty string,
empty slices and limit 0. -/
structure QueryInfo where
  collection : String := ""
  fields : List String := []
  timeField : String := ""
  additionalFilters : List FilterInfo := []
  orderField : String := ""
  orderDirection : String := ""
  limit : Int := 0
  groupByFields : List String := []
  aggregateFields : List AggregateInfo := []

/-- The `QueryInfo` literal built at the top of `parseSQLQueryWithVariables`. -/
def initQueryInfo : QueryInfo := {}

/-- Fault surfaced by the parsing model: the explicit "missing SELECT or FROM"
error, or a Go slice-bounds panic (recovered by the query-level boundary). -/
inductive ParseFault where
  | missingSelectFrom
  | outOfRange
  deriving DecidableEq

/-- Scanner for the time-field loop of `parseWhereClause`: walking the
whitespace-split words, the first relational operator directly followed by a
word containing a time marker names the time field in the word before it. -/
def findTimeField : String → List String → Option String
  | _, [] => none
  | prev, op :: rest =>
    if (op = ">=" ∨ op = "<=" ∨ op = ">" ∨ op = "<") then
      match rest with
      | next :: _ =>
        if goContains next "$__from" ∨ goContains next "$__to" then some prev
        else findTimeField op rest
      | [] => findTimeField op rest
    else findTimeField op rest

/-- One WHERE condition (Go loop body in `parseWhereClause`): conditions with
time markers are skipped; `==` then `=` conditions become equality filters with
trimmed, quote-stripped operands; anything else is dropped. -/
def processCondition (condition : String) (info : QueryInfo) : QueryInfo :=
  if goContains condition "$__from" ∨ goContains condition "$__to" then info
  else if goContains condition "==" then
    let parts := if goContains condition " == " then goSplitN2 condition " == "
                 else goSplitN2 condition "=="
    match parts with
    | [f, v] =>
      { info with additionalFilters := info.additionalFilters ++
          [⟨goTrimSpace f, "==", .strV (goTrim (goTrimSpace v) [Char.ofNat 39, '"'])⟩] }
    | _ => info
  else if goContains condition "=" then
    let parts := if goContains condition " = " then goSplitN2 condition " = "
                 else goSplitN2 condition "="
    match parts with
    | [f, v] =>
      { info with additionalFilters := info.additionalFilters ++
          [⟨goTrimSpace f, "==", .strV (goTrim (goTrimSpace v) [Char.ofNat 39, '"'])⟩] }
    | _ => info
  else info

/-- Go `parseWhereClause`: detect the time field from `$__from`/`$__to`
markers, then split the clause on the literal `" AND "` and fold each
condition through `processCondition`. -/
def parseWhereClause (whereClause : String) (info : QueryInfo) : QueryInfo :=
  let info :=
    if goContains whereClause "$__from" ∨ goContains whereClause "$__to" then
      match goFields whereClause with
      | [] => info
      | p :: rest =>
        match findTimeField p rest with
        | some tf => { info with timeField := tf }
        | none => info
    else info
  (goSplit whereClause " AND ").foldl (fun i c => processCondition (goTrimSpace c) i) info

/-- Go `cleanBackticks`: trim whitespace then surrounding backtick characters. -/
def cleanBackticks (field : String) : String := goTrim (goTrimSpace field) ['`']

/-- Go `parseGroupBy`: split on commas, trim, drop empties, strip backticks. -/
def parseGroupBy (groupClause : String) (info : QueryInfo) : QueryInfo :=
  { info with groupByFields :=
      (goSplit groupClause ",").foldl (fun acc f =>
        let f := goTrimSpace f
        if f ≠ "" then acc ++ [cleanBackticks f] else acc) info.groupByFields }

/-- Classifier for one SELECT item in `parseAggregateFields`: wildcard,
aggregate-function call, or plain field. -/
def processSelectField (field : String) (info : QueryInfo) : QueryInfo :=
  let field := goTrimSpace field
  if field = "*" then { info with fields := info.fields ++ ["*"] }
  else
    let upperField := goToUpper field
    if goContains upperField "COUNT(" ∨ goContains upperField "SUM(" ∨
       goContains upperField "AVG(" ∨ goContains upperField "MIN(" ∨
       goContains upperField "MAX(" then
      let funcName :=
        if goHasPre upperField "COUNT(" then "COUNT"
        else if goHasPre upperField "SUM(" then "SUM"
        else if goHasPre upperField "AVG(" then "AVG"
        else if goHasPre upperField "MIN(" then "MIN"
        else if goHasPre upperField "MAX(" then "MAX"
        else ""
      let fieldName :=
        match goIndex field "(", goIndex field ")" with
        | some a, some b => if b > a then goTrimSpace (goSub field (a + 1) b) else ""
        | _, _ => ""
      let aliasName :=
        match goIndex (goToUpper field) " AS " with
        | some asPos => goTrimSpace (goSub field (asPos + 4) field.data.length)
        | none => field
      { info with aggregateFields := info.aggregateFields ++ [⟨funcName, fieldName, aliasName⟩] }
    else { info with fields := info.fields ++ [cleanBackticks field] }

/-- Go `parseAggregateFields`: reset the field lists, split the SELECT list on
commas and classify each item. -/
def parseAggregateFields (fieldsStr : String) (info : QueryInfo) : QueryInfo :=
  (goSplit fieldsStr ",").foldl (fun i f => processSelectField f i)
    { info with fields := [], aggregateFields := [] }

/-- Go `parseOrderBy`: first word is the order field; a second word equal to
`DESC` (case-insensitive) selects descending order, default ascending. -/
def parseOrderBy (orderClause : String) (info : QueryInfo) : QueryInfo :=
  match goFields orderClause with
  | [] => info
  | f :: rest =>
    let dir := match rest with
      | d :: _ => if goToUpper d = "DESC" then "DESC" else "ASC"
      | [] => "ASC"
    { info with orderField := f, orderDirection := dir }

/-- Go `parseLimit`: `strconv.Atoi` of the first whitespace token; `none`
models the returned error. -/
def parseLimit (limitStr : String) : Option Int :=
  match goFields limitStr with
  | [] => none
  | t :: _ => goAtoi t

/-- Go `findGroupByIndex`: probe a fixed list of whitespace variants of the
`group by` keyword and return the index of the first variant found. -/
def findGroupByIndex (queryLower : String) : Option Nat :=
  [" group by ", "\ngroup by ", "\n  group by ", "\n\tgroup by ",
   "\r\ngroup by ", "\r\n  group by "].foldl
    (fun r p => match r with | some i => some i | none => goIndex queryLower p) none

/-- Go `findLimitIndex`: probe a fixed list of whitespace variants of the
`limit` keyword and return the index of the first variant found. -/
def findLimitIndex (queryLower : String) : Option Nat :=
  [" limit ", "\nlimit ", "\n  limit ", "\n\tlimit ",
   "\r\nlimit ", "\r\n  limit "].foldl
    (fun r p => match r with | some i => some i | none => goIndex queryLower p) none

/-- End of the FROM clause (`endIdx` in `parseSQLQueryWithVariables`): start
from the query length, take WHERE unconditionally when present, then lower the
bound to each later keyword index that is present and smaller. -/
def collectionEnd (len : Nat) (whereIdx groupIdx orderIdx limitIdx : Option Nat) : Nat :=
  let e := len
  let e := match whereIdx with | some w => w | none => e
  let e := match groupIdx with | some g => if g < e then g else e | none => e
  let e := match orderIdx with | some o => if o < e then o else e | none => e
  let e := match limitIdx with | some l => if l < e then l else e | none => e
  e

/-- End of the WHERE clause (`whereEndIdx` in `parseSQLQueryWithVariables`):
each later keyword that is present and lies after the WHERE keyword
overwrites the bound in turn, so the last check wins, not the nearest index. -/
def whereEndIdx (len w : Nat) (groupIdx orderIdx limitIdx : Option Nat) : Nat :=
  let e := len
  let e := match groupIdx with | some g => if g > w then g else e | none => e
  let e := match orderIdx with | some o => if o > w then o else e | none => e
  let e := match limitIdx with | some l => if l > w then l else e | none => e
  e

/-- End of the GROUP BY clause (`groupEndIdx`): ORDER BY when it is present
after the keyword, else LIMIT when present after it, else the query length. -/
def groupEndIdx (len g : Nat) (orderIdx limitIdx : Option Nat) : Nat :=
  match orderIdx with
  | some o =>
    if o > g then o
    else match limitIdx with
      | some l => if l > g then l else len
      | none => len
  | none =>
    match limitIdx with
    | some l => if l > g then l else len
    | none => len

/-- End of the ORDER BY clause (`orderEndIdx`): LIMIT when present after the
keyword, else the query length. -/
def orderEndIdx (len o : Nat) (limitIdx : Option Nat) : Nat :=
  match limitIdx with
  | some l => if l > o then l else len
  | none => len

/-- WHERE stage of `parseSQLQueryWithVariables`: slice the clause between the
keyword and `whereEndIdx` and run `parseWhereClause` on it. -/
def parseWhereStage (qo : String) (whereIdx groupIdx orderIdx limitIdx : Option Nat)
    (info : QueryInfo) : Except ParseFault QueryInfo :=
  match whereIdx with
  | none => .ok info
  | some w =>
    match goSlice qo (w + 7) (whereEndIdx qo.data.length w groupIdx orderIdx limitIdx) with
    | none => .error .outOfRange
    | some wc => .ok (parseWhereClause (goTrimSpace wc) info)

/-- GROUP BY stage of `parseSQLQueryWithVariables`: slice the clause starting
10 characters past the keyword index and run `parseGroupBy`. -/
def parseGroupStage (qo : String) (groupIdx orderIdx limitIdx : Option Nat)
    (info : QueryInfo) : Except ParseFault QueryInfo :=
  match groupIdx with
  | none => .ok info
  | some g =>
    match goSlice qo (g + 10) (groupEndIdx qo.data.length g orderIdx limitIdx) with
    | none => .error .outOfRange
    | some gc => .ok (parseGroupBy (goTrimSpace gc) info)

/-- ORDER BY stage of `parseSQLQueryWithVariables`: slice the clause starting
10 characters past the keyword index and run `parseOrderBy`. -/
def parseOrderStage (qo : String) (orderIdx limitIdx : Option Nat)
    (info : QueryInfo) : Except ParseFault QueryInfo :=
  match orderIdx with
  | none => .ok info
  | some o =>
    match goSlice qo (o + 10) (orderEndIdx qo.data.length o limitIdx) with
    | none => .error .outOfRange
    | some oc => .ok (parseOrderBy (goTrimSpace oc) info)

/-- LIMIT stage of `parseSQLQueryWithVariables`: take the text 7 characters
past the keyword to the end, and set the limit only when `parseLimit`
succeeds. -/
def parseLimitStage (qo : String) (limitIdx : Option Nat)
    (info : QueryInfo) : Except ParseFault QueryInfo :=
  match limitIdx with
  | none => .ok info
  | some l =>
    match goSlice qo (l + 7) qo.data.length with
    | none => .error .outOfRange
    | some ls =>
      match parseLimit (goTrimSpace ls) with
      | some v => .ok { info with limit := v }
      | none => .ok info

/-- Clause pipeline of `parseSQLQueryWithVariables` once the SELECT and FROM
keywords are located: SELECT field list, collection slice, then the WHERE,
GROUP BY, ORDER BY and LIMIT stages in source order. -/
def parseRest (queryOriginal queryLower : String) (selectIdx fromIdx : Nat) :
    Except ParseFault QueryInfo :=
  match goSlice queryOriginal (selectIdx + 7) fromIdx with
  | none => .error .outOfRange
  | some rawFields =>
    let info := parseAggregateFields (goTrimSpace rawFields) initQueryInfo
    let whereIdx := goIndex queryLower " where "
    let groupIdx := findGroupByIndex queryLower
    let orderIdx := goIndex queryLower " order by "
    let limitIdx := findLimitIndex queryLower
    let endIdx := collectionEnd queryOriginal.data.length whereIdx groupIdx orderIdx limitIdx
    match goSlice queryOriginal (fromIdx + 6) endIdx with
    | none => .error .outOfRange
    | some collStr =>
      let info := { info with collection := goTrimSpace collStr }
      match parseWhereStage queryOriginal whereIdx groupIdx orderIdx limitIdx info with
      | .error e => .error e
      | .ok info =>
        match parseGroupStage queryOriginal groupIdx orderIdx limitIdx info with
        | .error e => .error e
        | .ok info =>
          match parseOrderStage queryOriginal orderIdx limitIdx info with
          | .error e => .error e
          | .ok info => parseLimitStage queryOriginal limitIdx info

/-- Go `parseSQLQueryWithVariables`: the hand-rolled SQL-subset parser. Fails
with `missingSelectFrom` when `"select "` or `" from "` is absent from the
lower-cased trimmed query; clause stages run in source order (SELECT list,
collection, WHERE, GROUP BY, ORDER BY, LIMIT), and `outOfRange` models the Go
slice panics reachable on degenerate keyword layouts. -/
def parseSQLQueryWithVariables (query : String) : Except ParseFault QueryInfo :=
  let queryOriginal := goTrimSpace query
  let queryLower := goToLower queryOriginal
  match goIndex queryLower "select ", goIndex queryLower " from " with
  | some selectIdx, some fromIdx => parseRest queryOriginal queryLower selectIdx fromIdx
  | _, _ => .error .missingSelectFrom

/-- Go `containsGrafanaVariables`: the query text mentions a global time
variable. -/
def containsGrafanaVariables (query : String) : Bool :=
  goContains query "$__from" ∨ goContains query "$__to"

/-- Go `containsGroupBy`: the lower-cased query text contains `group by`. -/
def containsGroupBy (query : String) : Bool :=
  goContains (goToLower query) "group by"

/-- Grafana time window; `time.Time` is abstracted to one integer of ticks
where `0` is Go's zero time, which is all `Time.IsZero` observes. -/
structure TimeRange where
  fromTicks : Int
  toTicks : Int
  deriving DecidableEq

/-- Execution path chosen by `queryInternal` for a query model. -/
inductive Route where
  | native
  | delegated
  | emptyResponse
  deriving DecidableEq

/-- Routing decision of Go `queryInternal`: for a non-empty query text, the
native compiled-plan path is taken when Grafana time variables appear with a
fully non-zero window, or when the text contains `group by`; otherwise the
unmodified query string is delegated to the fireql library. An empty query
text skips both paths and yields an empty response. -/
def routeQuery (query : String) (tr : TimeRange) : Route :=
  if query.data.length > 0 then
    if (containsGrafanaVariables query ∧ tr.fromTicks ≠ 0 ∧ tr.toTicks ≠ 0) ∨
        containsGroupBy query then .native
    else .delegated
  else .emptyResponse

/-- Query text handed to the execution library on the delegated path
(`finalQuery := qm.Query` in `queryInternal`): the raw text, unmodified. -/
def delegatedQueryText (query : String) : String := query

/-- Column names emitted on the delegated (fireql) path of `queryInternal`:
each library-reported column name is suffixed with `_USING_FIREQL`. -/
def delegatedColumnNames (columns : List String) : List String :=
  columns.map (fun column => column ++ "_USING_FIREQL")

/-- One filter check of `applyManualFiltering`'s inner loop: the document
passes a filter when the dotted-path resolution is non-nil and, for the `==`
operator, the `%v` renderings of resolved and expected value coincide; a
filter with any other operator never rejects. -/
def filterPasses (docData : GoDoc) (f : FilterInfo) : Bool :=
  match getNestedFieldValue docData f.field with
  | .null => false
  | v => if f.operator = "==" then goFormat v = goFormat f.value else true

/-- All-filters check of `applyManualFiltering`'s loop body (logical AND with
early exit, which agrees with the conjunction). -/
def docPassesFilters (docData : GoDoc) (filters : List FilterInfo) : Bool :=
  filters.all (filterPasses docData)

/-- Document loop of `applyManualFiltering`: keep, in order, the documents
that pass every filter. -/
def manualFilterLoop (filters : List FilterInfo) : List GoDoc → List GoDoc
  | [] => []
  | d :: rest =>
    if docPassesFilters d filters then d :: manualFilterLoop filters rest
    else manualFilterLoop filters rest

/-- Go `applyManualFiltering`: early return of the input on an empty filter
list or document list, else the filtering loop. Documents are modelled by
their `Data()` map; the Go nil-snapshot guards cannot fire in the model. -/
def applyManualFiltering (docs : List GoDoc) (filters : List FilterInfo) : List GoDoc :=
  if filters.length = 0 then docs
  else if docs.length = 0 then docs
  else manualFilterLoop filters docs

/-- Composite grouping key of `processGroupByQueryWithOrdering`: the `%v`
renderings of the group-field resolutions joined with a pipe. -/
def groupKey (docData : GoDoc) (groupByFields : List String) : String :=
  goJoin "|" (groupByFields.map (fun f => goFormat (getNestedFieldValue docData f)))

/-- Append a document to its key's bucket, creating the bucket at the end on
first encounter (Go's `groups[groupKey] = append(...)`; the model fixes
first-encounter bucket order where Go map iteration order is unspecified). -/
def insertGrouped (key : String) (d : GoDoc) :
    List (String × List GoDoc) → List (String × List GoDoc)
  | [] => [(key, [d])]
  | (k, ds) :: rest =>
    if k = key then (k, ds ++ [d]) :: rest else (k, ds) :: insertGrouped key d rest

/-- Grouping step of `processGroupByQueryWithOrdering`: bucket the filtered
documents by composite key. -/
def groupDocs (groupByFields : List String) (docs : List GoDoc) :
    List (String × List GoDoc) :=
  docs.foldl (fun acc d => insertGrouped (groupKey d groupByFields) d acc) []

/-- Shared body of the aggregate loops: the resolved field value when it is
non-nil (`val != nil`) and float-coercible (`convertToFloat` succeeds). -/
def coerceField (field : String) (doc : GoDoc) : Option ℚ :=
  match getNestedFieldValue doc field with
  | .null => none
  | v => convertToFloat v

/-- One iteration of SUM/AVG accumulation: add and count a coercible resolved
value, skip everything else. -/
def avgStep (field : String) (sc : ℚ × Nat) (doc : GoDoc) : ℚ × Nat :=
  match getNestedFieldValue doc field with
  | .null => sc
  | v => match convertToFloat v with
         | some q => (sc.1 + q, sc.2 + 1)
         | none => sc

/-- Sum/count accumulator of the AVG branch of
`processGroupByQueryWithOrdering`: fold the group documents, adding each
resolved, float-coercible value and counting it. -/
def avgFold (field : String) (groupDocs : List GoDoc) : ℚ × Nat :=
  groupDocs.foldl (avgStep field) (0, 0)

/-- Optional-minimum accumulator of the MIN branch. -/
def minFold (field : String) (groupDocs : List GoDoc) : Option ℚ :=
  groupDocs.foldl (fun m doc =>
    match getNestedFieldValue doc field with
    | .null => m
    | v => match convertToFloat v with
           | some q => match m with
                       | none => some q
                       | some cur => if q < cur then some q else some cur
           | none => m) none

/-- Optional-maximum accumulator of the MAX branch. -/
def maxFold (field : String) (groupDocs : List GoDoc) : Option ℚ :=
  groupDocs.foldl (fun m doc =>
    match getNestedFieldValue doc field with
    | .null => m
    | v => match convertToFloat v with
           | some q => match m with
                       | none => some q
                       | some cur => if q > cur then some q else some cur
           | none => m) none

/-- Aggregate dispatch of `processGroupByQueryWithOrdering` (the `switch` on
the aggregate function): COUNT is the group size; SUM adds coercible values;
AVG divides the accumulated sum by the coercion count, guarded by `count > 0`
with `0.0` for an empty coercible set; MIN/MAX likewise default to `0.0`;
unknown functions yield `0.0`. -/
def aggValue (function : String) (field : String) (groupDocs : List GoDoc) : ℚ :=
  if function = "COUNT" then (groupDocs.length : ℚ)
  else if function = "SUM" then (avgFold field groupDocs).1
  else if function = "AVG" then
    let sc := avgFold field groupDocs
    if sc.2 > 0 then sc.1 / (sc.2 : ℚ) else 0
  else if function = "MIN" then
    match minFold field groupDocs with
    | some m => m
    | none => 0
  else if function = "MAX" then
    match maxFold field groupDocs with
    | some m => m
    | none => 0
  else 0

/-- One aggregated output row (Go's local `AggregatedResult`): the group-field
values of the representative document, the aggregate values in SELECT order,
and the float sort key used by ORDER BY. -/
structure AggregatedResult where
  groupValues : List GoValue
  aggregateValues : List ℚ
  sortValue : ℚ

/-- Alias cleanup used by the ORDER BY matching (`cleanedAlias` computation):
for a raw alias still containing function syntax, take the word after a
case-insensitive `AS`, else fall back to the lower-cased function name. -/
def cleanAlias (aliasName function : String) : String :=
  if goContains aliasName "(" ∧ goContains aliasName ")" then
    if goContains (goToUpper aliasName) " AS " then
      findWordAfterAS (goSplit aliasName " ") aliasName
    else goToLower function
  else aliasName
where
  /-- First word following a word that upper-cases to `AS`, else the default. -/
  findWordAfterAS : List String → String → String
    | [], dflt => dflt
    | [_], dflt => dflt
    | p :: q :: rest, dflt =>
      if goToUpper p = "AS" then q else findWordAfterAS (q :: rest) dflt

/-- ORDER BY match test performed while aggregating: the order field equals
the raw alias, the cleaned alias, or the lower-cased function name. -/
def orderFieldMatches (orderField : String) (agg : AggregateInfo) : Bool :=
  orderField = agg.aliasName ∨ orderField = cleanAlias agg.aliasName agg.function ∨
    orderField = goToLower agg.function

/-- Per-group result construction of `processGroupByQueryWithOrdering`
(steps 1-2): representative group values from the first document, aggregate
values in order, and the sort value set by the last ORDER BY match among the
aggregates, then overridden by a matching group field when one coerces. -/
def buildResult (qi : QueryInfo) (docsOfGroup : List GoDoc) : AggregatedResult :=
  let groupValues :=
    match docsOfGroup with
    | [] => []
    | d :: _ => qi.groupByFields.map (fun f => getNestedFieldValue d f)
  let (aggVals, sortVal) :=
    qi.aggregateFields.foldl (fun (acc : List ℚ × ℚ) agg =>
      let v := aggValue agg.function agg.field docsOfGroup
      let sv := if qi.orderField ≠ "" ∧ orderFieldMatches qi.orderField agg then v else acc.2
      (acc.1 ++ [v], sv)) ([], 0)
  let sortVal :=
    if qi.orderField ≠ "" then
      (qi.groupByFields.enum.foldl (fun sv gi =>
        if qi.orderField = gi.2 ∧ gi.1 < groupValues.length then
          match convertToFloat (groupValues.getD gi.1 .null) with
          | some q => q
          | none => sv
        else sv) sortVal)
    else sortVal
  ⟨groupValues, aggVals, sortVal⟩

/-- Recovery pass inside the ORDER BY step (step 3): a result whose sort value
is still zero retries the aggregate match with raw alias or function name only,
the last match winning. -/
def recoverSortValue (qi : QueryInfo) (r : AggregatedResult) : AggregatedResult :=
  if r.sortValue = 0 then
    { r with sortValue :=
        qi.aggregateFields.enum.foldl (fun sv ai =>
          if (qi.orderField = ai.2.aliasName ∨ qi.orderField = goToLower ai.2.function) ∧
              ai.1 < r.aggregateValues.length then
            r.aggregateValues.getD ai.1 0
          else sv) r.sortValue }
  else r

/-- Inner loop of the exchange sort: compare the current element at position
`i` against each later element, swapping when `shouldSwap` fires; returns the
final element for position `i` and the updated tail. -/
def innerPass (shouldSwap : AggregatedResult → AggregatedResult → Bool)
    (x : AggregatedResult) : List AggregatedResult → AggregatedResult × List AggregatedResult
  | [] => (x, [])
  | y :: ys =>
    if shouldSwap x y then
      let (fin, ys') := innerPass shouldSwap y ys
      (fin, x :: ys')
    else
      let (fin, ys') := innerPass shouldSwap x ys
      (fin, y :: ys')

/-- Recursion engine for the exchange sort; `fuel` counts the remaining outer
iterations and equals the list length at the top-level call, which is always
sufficient because `innerPass` preserves the tail length. -/
def exchangeSortFuel (shouldSwap : AggregatedResult → AggregatedResult → Bool) :
    Nat → List AggregatedResult → List AggregatedResult
  | 0, l => l
  | _ + 1, [] => []
  | fuel + 1, x :: xs =>
    let p := innerPass shouldSwap x xs
    p.1 :: exchangeSortFuel shouldSwap fuel p.2

/-- Pairwise exchange sort of the ORDER BY step (the nested i/j loops with
conditional swaps), rendered as the standard recursion: one inner pass
settles the front position, the recursion sorts the rest. -/
def exchangeSort (shouldSwap : AggregatedResult → AggregatedResult → Bool)
    (l : List AggregatedResult) : List AggregatedResult :=
  exchangeSortFuel shouldSwap l.length l

/-- Swap test of the exchange sort: DESC swaps when the earlier sort value is
smaller, ASC when it is greater. -/
def sortSwapTest (orderDirection : String) (a b : AggregatedResult) : Bool :=
  if orderDirection = "DESC" then a.sortValue < b.sortValue else a.sortValue > b.sortValue

/-- Steps 1-3 of `processGroupByQueryWithOrdering`: manual filtering, grouping,
per-group aggregation, and - when an ORDER BY field is present - the
sort-value recovery pass followed by the exchange sort. -/
def sortedAggregatedResults (docs : List GoDoc) (qi : QueryInfo) : List AggregatedResult :=
  let filteredDocs := applyManualFiltering docs qi.additionalFilters
  let groups := groupDocs qi.groupByFields filteredDocs
  let results := groups.map (fun g => buildResult qi g.2)
  if qi.orderField ≠ "" then
    exchangeSort (sortSwapTest qi.orderDirection) (results.map (recoverSortValue qi))
  else results

/-- Step 4 of `processGroupByQueryWithOrdering`: truncate to the first `Limit`
results exactly when `0 < Limit < len(results)`. -/
def applyPostAggLimit (limit : Int) (results : List AggregatedResult) :
    List AggregatedResult :=
  if limit > 0 ∧ limit < (results.length : Int) then results.take limit.toNat else results

/-- Result rows of Go `processGroupByQueryWithOrdering`: empty input yields
the empty frame, otherwise steps 1-3 followed by the LIMIT truncation. -/
def processGroupByResults (docs : List GoDoc) (qi : QueryInfo) : List AggregatedResult :=
  if docs.length = 0 then []
  else applyPostAggLimit qi.limit (sortedAggregatedResults docs qi)

/-- Push-down shape of the native Firestore query built by
`executeWithNativeSDKForVariables` before any documents are read: the time
window filter, the optional ORDER BY push-down (suppressed for aggregating
plans), and the optional raw-stream limit (`Limit(queryInfo.Limit)` whenever
`Limit > 0`, with no aggregation guard). -/
structure FirestorePushdown where
  timeFiltered : Bool
  orderBy : Option (String × String)
  rawLimit : Option Int
  deriving DecidableEq

/-- Go `executeWithNativeSDKForVariables`, query-construction portion
(the `firestoreQuery` builder between parsing and `GetAll`). -/
def buildFirestoreQuery (qi : QueryInfo) : FirestorePushdown :=
  { timeFiltered := qi.timeField ≠ ""
    orderBy :=
      if qi.orderField ≠ "" ∧ qi.groupByFields.length = 0 ∧ qi.aggregateFields.length = 0 then
        some (qi.orderField, if qi.orderDirection = "DESC" then "DESC" else "ASC")
      else none
    rawLimit := if qi.limit > 0 then some qi.limit else none }

/-- Values of a group that take part in SUM/AVG/MIN/MAX: the resolved field
values that are non-nil and float-coercible, in document order. -/
def coercedValues (field : String) (docs : List GoDoc) : List ℚ :=
  docs.filterMap (coerceField field)

/-- Minimum of the keyword indices that are present, with the query length as
the default: the clause-boundary rule claimed by the specification. -/
def followingKeywordMin (len : Nat) (idxs : List (Option Nat)) : Nat :=
  (idxs.filterMap id).foldr min len

/-- Round-trip query of the specification (claim C2). -/
def c2Query : String :=
  "SELECT status, COUNT(*) as total FROM orders GROUP BY status ORDER BY total DESC"

/-- Query whose WHERE clause is followed by both GROUP BY and ORDER BY
(claim C3): the nearest following keyword is GROUP BY. -/
def c3Query : String := "select a from c where x = 1 group by g order by o"

/-- Aggregating query carrying a LIMIT (claim C1). -/
def c1Query : String :=
  "select status, count(*) as total from orders group by status limit 5"

/-- Sample documents used by concrete witnesses. -/
def sampleDoc1 : GoDoc := [("status", .strV "open"), ("amt", .intV 10)]

/-- Second sample document. -/
def sampleDoc2 : GoDoc := [("status", .strV "open"), ("amt", .intV 30)]

/-- Third sample document. -/
def sampleDoc3 : GoDoc := [("status", .strV "closed"), ("amt", .intV 5)]

/-- Document whose first group field contains a pipe (claim C6). -/
def pipeDoc1 : GoDoc := [("g1", .strV "x|y"), ("g2", .strV "z")]

/-- Document whose second group field contains a pipe (claim C6). -/
def pipeDoc2 : GoDoc := [("g1", .strV "x"), ("g2", .strV "y|z")]

/-- Filter used by concrete witnesses. -/
def sampleFilter : FilterInfo := ⟨"status", "==", .strV "open"⟩

example : groupKey pipeDoc1 ["g1", "g2"] = "x|y|z" := rfl
example : groupKey pipeDoc2 ["g1", "g2"] = "x|y|z" := rfl
example : applyManualFiltering [sampleDoc1, sampleDoc2, sampleDoc3] [sampleFilter]
    = [sampleDoc1, sampleDoc2] := rfl
example : routeQuery "select a from b" ⟨1, 1⟩ = .delegated := by decide
example : routeQuery "select a from b group by x" ⟨0, 0⟩ = .native := by decide
example : routeQuery "select a from b where t >= $__from" ⟨1, 1⟩ = .native := by decide
example : routeQuery "select a from b where t >= $__from" ⟨0, 1⟩ = .delegated := by decide

/-- The filtering loop keeps exactly the in-order documents passing all
filters. -/
theorem manualFilterLoop_eq_filter (fs : List FilterInfo) (docs : List GoDoc) :
    manualFilterLoop fs docs = docs.filter (fun d => docPassesFilters d fs) := by
  induction docs with
  | nil => simp [manualFilterLoop]
  | cons d rest ih =>
    simp only [manualFilterLoop, List.filter_cons]
    by_cases h : docPassesFilters d fs <;> simp [h, ih]

/-- The manual filter evaluator, early returns included, is the in-order
filter of the documents by the all-filters check. -/
theorem applyManualFiltering_eq_filter (docs : List GoDoc) (fs : List FilterInfo) :
    applyManualFiltering docs fs = docs.filter (fun d => docPassesFilters d fs) := by
  unfold applyManualFiltering
  by_cases hf : fs.length = 0
  · have h0 : fs = [] := List.length_eq_zero.mp hf
    subst h0
    simp [docPassesFilters]
  · by_cases hd : docs.length = 0
    · have h0 : docs = [] := List.length_eq_zero.mp hd
      subst h0
      simp [hf, manualFilterLoop]
    · simp [hf, hd, manualFilterLoop_eq_filter]

/-- With equality operators, the all-filters check coincides with the
non-nil-and-equal-strings predicate stated by the specification. -/
theorem docPassesFilters_spec (d : GoDoc) (fs : List FilterInfo)
    (heq : ∀ f ∈ fs, f.operator = "==") :
    docPassesFilters d fs = fs.all (fun f =>
      match getNestedFieldValue d f.field with
      | .null => false
      | v => goFormat v = goFormat f.value) := by
  induction fs with
  | nil => rfl
  | cons f rest ih =>
    have hf : f.operator = "==" := heq f (List.mem_cons_self ..)
    have hrest : ∀ g ∈ rest, g.operator = "==" := fun g hg => heq g (List.mem_cons_of_mem _ hg)
    unfold docPassesFilters at ih ⊢
    simp only [List.all_cons, ih hrest]
    congr 1
    unfold filterPasses
    cases getNestedFieldValue d f.field <;> simp [hf]

/-- C5: for every document sequence and every sequence of equality filters,
the manual filter evaluator returns exactly the order-preserving subsequence
of documents in which every filter's dotted-path field resolves to a non-nil
value whose stringification equals the stringification of the filter's value;
a document with a nil resolution is excluded. -/
theorem manual_filter_exact_subsequence (docs : List GoDoc) (fs : List FilterInfo)
    (heq : ∀ f ∈ fs, f.operator = "==") :
    applyManualFiltering docs fs = docs.filter (fun d =>
      fs.all (fun f =>
        match getNestedFieldValue d f.field with
        | .null => false
        | v => goFormat v = goFormat f.value)) := by
  rw [applyManualFiltering_eq_filter]
  exact List.filter_congr fun d _ => docPassesFilters_spec d fs heq

/-- C5 witness: one equality filter on `status` keeps, in order, exactly the
two documents whose `status` renders as `open`. -/
theorem manual_filter_exact_subsequence_witness :
    applyManualFiltering [sampleDoc1, sampleDoc2, sampleDoc3] [sampleFilter]
      = [sampleDoc1, sampleDoc2] := by
  rw [manual_filter_exact_subsequence [sampleDoc1, sampleDoc2, sampleDoc3] [sampleFilter]
    (by intro f hf; simp only [List.mem_singleton] at hf; subst hf; rfl)]
  rfl

/-- C9: the manual filter evaluator is idempotent, so the second filtering
pass performed inside the GROUP BY aggregation leaves the set built by the
first pass unchanged. -/
theorem applyManualFiltering_idempotent (docs : List GoDoc) (fs : List FilterInfo) :
    applyManualFiltering (applyManualFiltering docs fs) fs = applyManualFiltering docs fs := by
  simp [applyManualFiltering_eq_filter, List.filter_filter]

/-- C10: on the delegated execution path every emitted column name is the
library-reported column name suffixed with `_USING_FIREQL`, and therefore
never the bare source column name of that column. -/
theorem delegated_columns_suffixed (columns : List String) (i : Nat)
    (h : i < columns.length) (h2 : i < (delegatedColumnNames columns).length) :
    (delegatedColumnNames columns).get ⟨i, h2⟩ = columns.get ⟨i, h⟩ ++ "_USING_FIREQL" ∧
    (delegatedColumnNames columns).get ⟨i, h2⟩ ≠ columns.get ⟨i, h⟩ := by
  have hmap : (delegatedColumnNames columns).get ⟨i, h2⟩
      = columns.get ⟨i, h⟩ ++ "_USING_FIREQL" := by
    simp [delegatedColumnNames]
  refine ⟨hmap, ?_⟩
  rw [hmap]
  intro hcontra
  have hlen := congrArg String.length hcontra
  rw [String.length_append] at hlen
  have : ("_USING_FIREQL" : String).length = 13 := by decide
  omega

/-- C10 witness: the single reported column `value` is emitted as
`value_USING_FIREQL`, which differs from `value`. -/
theorem delegated_columns_suffixed_witness :
    (delegatedColumnNames ["value"]).get ⟨0, by decide⟩ = "value_USING_FIREQL" ∧
    (delegatedColumnNames ["value"]).get ⟨0, by decide⟩ ≠ ["value"].get ⟨0, by decide⟩ := by
  have h := delegated_columns_suffixed ["value"] 0 (by decide) (by decide)
  exact ⟨by rw [h.1]; rfl, h.2⟩

/-- C4 counterexample: with an empty query text the code returns an empty
response without delegating to the execution library, although the routing
condition is false, so "in all other cases the query is delegated" fails. -/
theorem route_empty_query_not_delegated :
    routeQuery "" ⟨1, 1⟩ = .emptyResponse ∧
    routeQuery "" ⟨1, 1⟩ ≠ .delegated ∧
    containsGrafanaVariables "" = false ∧ containsGroupBy "" = false := by decide

/-- C4 (amended to non-empty query texts): the native compiled-plan path is
selected exactly when the text mentions a Grafana time variable with a fully
non-zero window or contains `group by` case-insensitively, and a non-empty
query is delegated unmodified exactly otherwise. -/
theorem router_native_iff (query : String) (tr : TimeRange) :
    (routeQuery query tr = .native ↔
      (((goContains query "$__from" ∨ goContains query "$__to") ∧
          tr.fromTicks ≠ 0 ∧ tr.toTicks ≠ 0) ∨
        goContains (goToLower query) "group by")) ∧
    (query ≠ "" →
      (routeQuery query tr = .delegated ↔
        ¬(((goContains query "$__from" ∨ goContains query "$__to") ∧
            tr.fromTicks ≠ 0 ∧ tr.toTicks ≠ 0) ∨
          goContains (goToLower query) "group by"))) ∧
    delegatedQueryText query = query := by
  refine and_assoc.mp ⟨?_, rfl⟩
  by_cases h : query.data.length > 0
  · have hroute : routeQuery query tr =
        if (containsGrafanaVariables query ∧ tr.fromTicks ≠ 0 ∧ tr.toTicks ≠ 0) ∨
            containsGroupBy query
        then .native else .delegated := by
      unfold routeQuery
      rw [if_pos h]
    by_cases hc : (containsGrafanaVariables query ∧ tr.fromTicks ≠ 0 ∧ tr.toTicks ≠ 0) ∨
        containsGroupBy query
    · have hc' := hc
      simp only [containsGrafanaVariables, containsGroupBy, decide_eq_true_eq] at hc'
      rw [hroute, if_pos hc]
      exact ⟨iff_of_true rfl hc', fun _ => iff_of_false (by simp) (not_not_intro hc')⟩
    · have hc' := hc
      simp only [containsGrafanaVariables, containsGroupBy, decide_eq_true_eq] at hc'
      rw [hroute, if_neg hc]
      exact ⟨iff_of_false (by simp) hc', fun _ => iff_of_true rfl hc'⟩
  · have hq : query = "" := by
      cases query with
      | mk l =>
        cases l with
        | nil => rfl
        | cons c cs => simp at h
    subst hq
    have hroute : routeQuery "" tr = .emptyResponse := by
      unfold routeQuery
      simp
    rw [hroute]
    refine ⟨iff_of_false (by simp) ?_, fun hne => absurd rfl hne⟩
    simp only [show goContains "" "$__from" = false from rfl,
      show goContains "" "$__to" = false from rfl,
      show goContains (goToLower "") "group by" = false from rfl]
    simp

/-- C4 witness: a plain query with a non-zero window is delegated, and so is a
time-variable query with a zero-valued window bound. -/
theorem router_native_iff_witness :
    routeQuery "select a from b" ⟨1, 1⟩ = .delegated ∧
    routeQuery "select a from b where t >= $__from" ⟨0, 5⟩ = .delegated := by
  constructor
  · exact ((router_native_iff "select a from b" ⟨1, 1⟩).2.1 (by decide)).mpr (by decide)
  · exact ((router_native_iff "select a from b where t >= $__from" ⟨0, 5⟩).2.1
      (by decide)).mpr (by decide)

/-- One accumulation step adds and counts exactly the coercible resolved
value delivered by `coerceField`. -/
theorem avgStep_eq (field : String) (sc : ℚ × Nat) (doc : GoDoc) :
    avgStep field sc doc =
      match coerceField field doc with
      | some q => (sc.1 + q, sc.2 + 1)
      | none => sc := by
  unfold avgStep coerceField
  cases getNestedFieldValue doc field with
  | null => rfl
  | boolV b => rfl
  | intV n => rfl
  | floatV q => rfl
  | strV s => cases parseGoFloat s <;> rfl
  | mapV m => rfl

/-- The AVG accumulator computes the sum and the count of the coercible
values of the group. -/
theorem avgFold_spec (field : String) (docs : List GoDoc) :
    avgFold field docs =
      ((coercedValues field docs).sum, (coercedValues field docs).length) := by
  suffices h : ∀ s : ℚ, ∀ c : Nat,
      docs.foldl (avgStep field) (s, c) =
      (s + (coercedValues field docs).sum, c + (coercedValues field docs).length) by
    have h0 := h 0 0
    simpa [avgFold] using h0
  induction docs with
  | nil => intro s c; simp [coercedValues]
  | cons d rest ih =>
    intro s c
    rw [List.foldl_cons, avgStep_eq]
    cases hc : coerceField field d with
    | none =>
      simp only [coercedValues, List.filterMap_cons, hc]
      exact ih s c
    | some q =>
      simp only [coercedValues, List.filterMap_cons, hc]
      rw [ih (s + q) (c + 1)]
      simp only [coercedValues, List.sum_cons, List.length_cons]
      refine Prod.ext ?_ ?_
      · ring
      · omega

/-- C7: the AVG aggregate is total over every group: with no coercible value
it returns exactly 0 (not an error and not an undefined division), and with at
least one coercible value it returns the sum of the coerced values divided by
their count, the divisor being provably non-zero in that branch. -/
theorem avg_total_guarded (groupDocs : List GoDoc) (field : String) :
    (coercedValues field groupDocs = [] → aggValue "AVG" field groupDocs = 0) ∧
    (coercedValues field groupDocs ≠ [] →
      aggValue "AVG" field groupDocs
        = (coercedValues field groupDocs).sum / ((coercedValues field groupDocs).length : ℚ) ∧
      ((coercedValues field groupDocs).length : ℚ) ≠ 0) := by
  have hunfold : aggValue "AVG" field groupDocs =
      if (coercedValues field groupDocs).length > 0
      then (coercedValues field groupDocs).sum / ((coercedValues field groupDocs).length : ℚ)
      else 0 := by
    unfold aggValue
    rw [if_neg (by decide), if_neg (by decide), if_pos rfl, avgFold_spec]
  constructor
  · intro h
    rw [hunfold, h]
    simp
  · intro h
    have hlen : 0 < (coercedValues field groupDocs).length := List.length_pos.mpr h
    refine ⟨?_, ?_⟩
    · rw [hunfold, if_pos hlen]
    · exact_mod_cast Nat.pos_iff_ne_zero.mp hlen

/-- C7 witness: AVG of `amt` over two documents with values 10 and 30 is 20,
through the non-empty branch of the theorem. -/
theorem avg_total_guarded_witness : aggValue "AVG" "amt" [sampleDoc1, sampleDoc2] = 20 := by
  have h := (avg_total_guarded [sampleDoc1, sampleDoc2] "amt").2 (by decide)
  rw [h.1, show coercedValues "amt" [sampleDoc1, sampleDoc2] = [(10 : ℚ), 30] from rfl]
  norm_num

/-- Strings with identical character data are equal. -/
theorem string_data_inj {a b : String} (h : a.data = b.data) : a = b := by
  cases a
  cases b
  exact congrArg String.mk h

/-- Two pipe-free character lists followed by a pipe split the concatenation
uniquely at that first pipe. -/
theorem append_pipe_inj (as : List Char) : ∀ bs t1 t2 : List Char, '|' ∉ as → '|' ∉ bs →
    as ++ '|' :: t1 = bs ++ '|' :: t2 → as = bs ∧ t1 = t2 := by
  induction as with
  | nil =>
    intro bs t1 t2 _ hb h
    cases bs with
    | nil => simpa using h
    | cons b bs' =>
      simp only [List.nil_append, List.cons_append, List.cons.injEq] at h
      exact absurd (by rw [h.1]; exact List.mem_cons_self b bs') hb
  | cons a as' ih =>
    intro bs t1 t2 ha hb h
    cases bs with
    | nil =>
      simp only [List.cons_append, List.nil_append, List.cons.injEq] at h
      exact absurd (by rw [← h.1]; exact List.mem_cons_self a as') ha
    | cons b bs' =>
      simp only [List.cons_append, List.cons.injEq] at h
      obtain ⟨hab, hrest⟩ := h
      obtain ⟨h1, h2⟩ := ih bs' t1 t2 (fun hm => ha (List.mem_cons_of_mem _ hm))
        (fun hm => hb (List.mem_cons_of_mem _ hm)) hrest
      exact ⟨by rw [hab, h1], h2⟩

/-- Joining with the pipe separator is injective on equal-length lists of
pipe-free strings. -/
theorem goJoin_pipe_inj : ∀ l1 l2 : List String, l1.length = l2.length →
    (∀ s ∈ l1, '|' ∉ s.data) → (∀ s ∈ l2, '|' ∉ s.data) →
    goJoin "|" l1 = goJoin "|" l2 → l1 = l2 := by
  intro l1
  induction l1 with
  | nil =>
    intro l2 hlen _ _ _
    cases l2 with
    | nil => rfl
    | cons b l2' => simp at hlen
  | cons a l1' ih =>
    intro l2 hlen h1 h2 hj
    cases l2 with
    | nil => simp at hlen
    | cons b l2' =>
      cases l1' with
      | nil =>
        cases l2' with
        | nil => simpa [goJoin] using hj
        | cons d l2'' => simp at hlen
      | cons c l1'' =>
        cases l2' with
        | nil => simp at hlen
        | cons d l2'' =>
          have hdata : a.data ++ '|' :: (goJoin "|" (c :: l1'')).data
              = b.data ++ '|' :: (goJoin "|" (d :: l2'')).data := by
            have hd := congrArg String.data hj
            simpa [goJoin, String.data_append, List.append_assoc] using hd
          obtain ⟨hab, hrest⟩ := append_pipe_inj a.data b.data _ _
            (h1 a (List.mem_cons_self ..)) (h2 b (List.mem_cons_self ..)) hdata
          have hj' : goJoin "|" (c :: l1'') = goJoin "|" (d :: l2'') := string_data_inj hrest
          rw [string_data_inj hab,
            ih (d :: l2'') (by simpa using hlen)
              (fun s hs => h1 s (List.mem_cons_of_mem _ hs))
              (fun s hs => h2 s (List.mem_cons_of_mem _ hs)) hj']

/-- C6 counterexample: two documents whose per-field stringified group values
differ (`x|y` versus `x`) receive the same composite key because the pipe
separator also occurs inside a value, so the grouping step conflates them
into a single group. -/
theorem group_key_conflation :
    groupKey pipeDoc1 ["g1", "g2"] = groupKey pipeDoc2 ["g1", "g2"] ∧
    (groupDocs ["g1", "g2"] [pipeDoc1, pipeDoc2]).length = 1 ∧
    goFormat (getNestedFieldValue pipeDoc1 "g1")
      ≠ goFormat (getNestedFieldValue pipeDoc2 "g1") := by decide

/-- C6 (amended with pipe-free renderings): when no stringified group value of
either document contains the pipe separator, the two documents share a
composite grouping key exactly when every group field's stringified resolution
agrees on both documents. -/
theorem group_key_iff_fields (d1 d2 : GoDoc) (gfs : List String)
    (hp1 : ∀ f ∈ gfs, '|' ∉ (goFormat (getNestedFieldValue d1 f)).data)
    (hp2 : ∀ f ∈ gfs, '|' ∉ (goFormat (getNestedFieldValue d2 f)).data) :
    groupKey d1 gfs = groupKey d2 gfs ↔
      ∀ f ∈ gfs, goFormat (getNestedFieldValue d1 f) = goFormat (getNestedFieldValue d2 f) := by
  constructor
  · intro h
    have hlists := goJoin_pipe_inj
      (gfs.map fun f => goFormat (getNestedFieldValue d1 f))
      (gfs.map fun f => goFormat (getNestedFieldValue d2 f))
      (by simp)
      (by intro s hs
          obtain ⟨f, hf, rfl⟩ := List.mem_map.mp hs
          exact hp1 f hf)
      (by intro s hs
          obtain ⟨f, hf, rfl⟩ := List.mem_map.mp hs
          exact hp2 f hf)
      h
    exact List.map_inj_left.mp hlists
  · intro h
    unfold groupKey
    rw [List.map_congr_left h]

/-- C6 witness: with pipe-free values, equal `status` renderings give equal
composite keys. -/
theorem group_key_iff_fields_witness : groupKey sampleDoc1 ["status"] = groupKey sampleDoc2 ["status"] :=
  (group_key_iff_fields sampleDoc1 sampleDoc2 ["status"] (by decide) (by decide)).mpr (by decide)

/-- Steps 1-3 of the aggregation pipeline on an empty document list produce no
results. -/
theorem sortedAggregatedResults_nil (qi : QueryInfo) : sortedAggregatedResults [] qi = [] := by
  unfold sortedAggregatedResults
  rw [applyManualFiltering_eq_filter]
  simp only [List.filter_nil, groupDocs, List.foldl_nil, List.map_nil]
  split
  · rfl
  · rfl

/-- The result rows of the GROUP BY processor are always the limit truncation
of the sorted aggregation pipeline. -/
theorem processGroupByResults_eq (docs : List GoDoc) (qi : QueryInfo) :
    processGroupByResults docs qi = applyPostAggLimit qi.limit (sortedAggregatedResults docs qi) := by
  unfold processGroupByResults
  by_cases hd : docs.length = 0
  · have hnil : docs = [] := List.length_eq_zero.mp hd
    subst hnil
    rw [if_pos (by simp : ([] : List GoDoc).length = 0), sortedAggregatedResults_nil]
    unfold applyPostAggLimit
    rw [if_neg]
    intro hcontra
    simp at hcontra
    omega
  · rw [if_neg hd]

/-- C1 (amended): for every aggregating plan the ORDER BY push-down to the
store is suppressed and the result limit truncates the ordered aggregated
sequence to the first `Limit` entries exactly when `0 < Limit < count`; the
limit is, however, also applied to the raw pre-aggregation stream - the store
query is built with `Limit(queryInfo.Limit)` whenever `Limit > 0`, with no
aggregation guard. -/
theorem agg_limit_post_sort_and_pushdown (qi : QueryInfo)
    (hAgg : qi.groupByFields ≠ [] ∨ qi.aggregateFields ≠ []) :
    (buildFirestoreQuery qi).orderBy = none ∧
    ((buildFirestoreQuery qi).rawLimit = if qi.limit > 0 then some qi.limit else none) ∧
    (∀ docs : List GoDoc,
      (0 < qi.limit → qi.limit < ((sortedAggregatedResults docs qi).length : Int) →
        processGroupByResults docs qi = (sortedAggregatedResults docs qi).take qi.limit.toNat ∧
        (processGroupByResults docs qi).length = qi.limit.toNat) ∧
      (¬(0 < qi.limit ∧ qi.limit < ((sortedAggregatedResults docs qi).length : Int)) →
        processGroupByResults docs qi = sortedAggregatedResults docs qi)) := by
  refine ⟨?_, rfl, ?_⟩
  · unfold buildFirestoreQuery
    simp only
    rw [if_neg]
    intro hcontra
    rcases hAgg with h | h
    · exact h (List.length_eq_zero.mp hcontra.2.1)
    · exact h (List.length_eq_zero.mp hcontra.2.2)
  · intro docs
    constructor
    · intro hpos hlt
      have heq : processGroupByResults docs qi
          = (sortedAggregatedResults docs qi).take qi.limit.toNat := by
        rw [processGroupByResults_eq]
        unfold applyPostAggLimit
        rw [if_pos ⟨hpos, hlt⟩]
      refine ⟨heq, ?_⟩
      rw [heq, List.length_take]
      omega
    · intro hneg
      rw [processGroupByResults_eq]
      unfold applyPostAggLimit
      rw [if_neg hneg]

/-- C1 counterexample: the aggregating plan parsed from a GROUP BY query with
`LIMIT 5` drives the store query builder to limit the raw pre-aggregation
document stream to 5, refuting "the limit is never applied to the raw
pre-aggregation stream". -/
theorem agg_raw_stream_limited :
    parseSQLQueryWithVariables c1Query =
      .ok ⟨"orders", ["status"], "", [], "", "", 5, ["status"], [⟨"COUNT", "*", "total"⟩]⟩ ∧
    (buildFirestoreQuery
        ⟨"orders", ["status"], "", [], "", "", 5, ["status"], [⟨"COUNT", "*", "total"⟩]⟩).rawLimit
      = some 5 ∧
    (⟨"orders", ["status"], "", [], "", "", 5, ["status"],
        [⟨"COUNT", "*", "total"⟩]⟩ : QueryInfo).groupByFields ≠ [] := by
  refine ⟨rfl, rfl, by decide⟩

/-- C1 witness: grouping three sample documents by `status` under limit 1
suppresses the ORDER BY push-down and truncates the two aggregated results to
exactly one row. -/
theorem agg_limit_post_sort_and_pushdown_witness :
    (buildFirestoreQuery ⟨"x", [], "", [], "", "", 1, ["status"], []⟩).orderBy = none ∧
    (processGroupByResults [sampleDoc1, sampleDoc2, sampleDoc3]
        ⟨"x", [], "", [], "", "", 1, ["status"], []⟩).length = 1 := by
  have h := agg_limit_post_sort_and_pushdown ⟨"x", [], "", [], "", "", 1, ["status"], []⟩
    (Or.inl (by decide))
  refine ⟨h.1, ?_⟩
  have h2 := ((h.2.2 [sampleDoc1, sampleDoc2, sampleDoc3]).1 (by decide) (by decide)).2
  rw [h2]
  rfl

/-- C2 counterexample: parsing the round-trip query leaves the plain SELECT
item `status` in `Fields`, so `Fields` is `["status"]` and not the empty list
the claim states. -/
theorem roundtrip_fields_not_empty :
    (parseSQLQueryWithVariables c2Query).map QueryInfo.fields = .ok ["status"] ∧
    (parseSQLQueryWithVariables c2Query).map QueryInfo.fields ≠ .ok ([] : List String) := by
  refine ⟨rfl, ?_⟩
  rw [show (parseSQLQueryWithVariables c2Query).map QueryInfo.fields = .ok ["status"] from rfl]
  simp

/-- C2 (amended with `Fields = ["status"]`): parsing the round-trip query
yields the plan with Collection `orders`, Fields `["status"]`, one aggregate
`{COUNT, *, total}`, GroupByFields `["status"]`, OrderField `total` and
descending order, no filters, no time field and limit 0. -/
theorem roundtrip_plan_exact :
    parseSQLQueryWithVariables c2Query =
      .ok ⟨"orders", ["status"], "", [], "total", "DESC", 0, ["status"],
        [⟨"COUNT", "*", "total"⟩]⟩ := rfl

/-- C3 (amended): only the FROM clause's end is the minimum of the present
following-keyword indices (with the query length as default and no
after-the-start requirement); the WHERE clause's end is instead decided by
override order - LIMIT if present after WHERE, else ORDER BY if present after
WHERE, else GROUP BY if present after WHERE, else the query end - and the
GROUP BY clause's end prefers ORDER BY over LIMIT regardless of which index
is nearer, while the ORDER BY clause ends at a following LIMIT. -/
theorem clause_boundaries :
    (∀ (len : Nat) (w g o l : Option Nat), (∀ x ∈ w, x ≤ len) →
      collectionEnd len w g o l = followingKeywordMin len [w, g, o, l]) ∧
    (∀ (len wp : Nat) (g o l : Option Nat),
      (∀ li ∈ l, wp < li → whereEndIdx len wp g o l = li) ∧
      ((∀ li ∈ l, ¬ wp < li) → ∀ oi ∈ o, wp < oi → whereEndIdx len wp g o l = oi) ∧
      ((∀ li ∈ l, ¬ wp < li) → (∀ oi ∈ o, ¬ wp < oi) → ∀ gi ∈ g, wp < gi →
        whereEndIdx len wp g o l = gi) ∧
      ((∀ li ∈ l, ¬ wp < li) → (∀ oi ∈ o, ¬ wp < oi) → (∀ gi ∈ g, ¬ wp < gi) →
        whereEndIdx len wp g o l = len)) ∧
    (∀ (len gp : Nat) (o l : Option Nat), ∀ oi ∈ o, gp < oi → groupEndIdx len gp o l = oi) ∧
    (∀ (len op : Nat) (l : Option Nat), ∀ li ∈ l, op < li → orderEndIdx len op l = li) := by
  refine ⟨?_, ?_, ?_, ?_⟩
  · intro len w g o l hw
    have hw' : ∀ wv, w = some wv → wv ≤ len := fun wv hwv => hw wv (by rw [hwv]; rfl)
    clear hw
    rcases w with _ | wv <;> rcases g with _ | gv <;> rcases o with _ | ov <;>
      rcases l with _ | lv <;>
      simp only [collectionEnd, followingKeywordMin, List.filterMap_cons, List.filterMap_nil,
        id_eq, List.foldr_cons, List.foldr_nil] <;>
      (try have hwle := hw' _ rfl) <;>
      (try split_ifs) <;> omega
  · intro len wp g o l
    refine ⟨?_, ?_, ?_, ?_⟩
    · intro li hli hlt
      rw [Option.mem_def] at hli
      subst hli
      rcases g with _ | gv <;> rcases o with _ | ov <;> simp [whereEndIdx, hlt]
    · intro hl oi hoi hlt
      rw [Option.mem_def] at hoi
      subst hoi
      rcases l with _ | lv <;> rcases g with _ | gv <;>
        simp_all [whereEndIdx, hlt, Option.mem_def]
    · intro hl ho gi hgi hlt
      rw [Option.mem_def] at hgi
      subst hgi
      rcases l with _ | lv <;> rcases o with _ | ov <;>
        simp_all [whereEndIdx, hlt, Option.mem_def] <;>
        (try split_ifs) <;> omega
    · intro hl ho hg
      rcases l with _ | lv <;> rcases o with _ | ov <;> rcases g with _ | gv <;>
        simp_all [whereEndIdx, Option.mem_def] <;>
        (try split_ifs) <;> omega
  · intro len gp o l oi hoi hlt
    rw [Option.mem_def] at hoi
    subst hoi
    simp [groupEndIdx, hlt]
  · intro len op l li hli hlt
    rw [Option.mem_def] at hli
    subst hli
    simp [orderEndIdx, hlt]

/-- C3 witness: with WHERE at 10 and GROUP BY at 20 before ORDER BY at 40, the
WHERE clause's computed end is 40, while the FROM-clause boundary at the same
indices is the minimum 20. -/
theorem clause_boundaries_witness :
    whereEndIdx 100 10 (some 20) (some 40) none = 40 ∧
    collectionEnd 100 (some 10) (some 20) (some 40) none = 10 := by
  constructor
  · exact (clause_boundaries.2.1 100 10 (some 20) (some 40) none).2.1
      (by intro li hli; simp at hli) 40 rfl (by omega)
  · rw [clause_boundaries.1 100 (some 10) (some 20) (some 40) none (by simp)]
    rfl

/-- C3 counterexample: for `c3Query` the WHERE text handed to the WHERE parser
runs to the ORDER BY keyword and swallows the nearer GROUP BY clause, so the
parsed equality filter's value is the text `1 group by g` instead of `1`. -/
theorem where_clause_crosses_group_by :
    (parseSQLQueryWithVariables c3Query).map
        (fun i => i.additionalFilters.map fun f => (f.field, goFormat f.value))
      = .ok [("x", "1 group by g")] ∧
    (parseSQLQueryWithVariables c3Query).map
        (fun i => i.additionalFilters.map fun f => (f.field, goFormat f.value))
      ≠ .ok [("x", "1")] := by
  refine ⟨rfl, ?_⟩
  rw [show (parseSQLQueryWithVariables c3Query).map
        (fun i => i.additionalFilters.map fun f => (f.field, goFormat f.value))
      = .ok [("x", "1 group by g")] from rfl]
  simp

/-- Classifying one SELECT item never touches the parsed limit. -/
theorem processSelectField_limit (f : String) (i : QueryInfo) :
    (processSelectField f i).limit = i.limit := by
  unfold processSelectField
  dsimp only
  repeat' split
  all_goals rfl

/-- Parsing the SELECT list never touches the parsed limit. -/
theorem parseAggregateFields_limit (s : String) (i : QueryInfo) :
    (parseAggregateFields s i).limit = i.limit := by
  unfold parseAggregateFields
  have h : ∀ (fs : List String) (j : QueryInfo),
      (fs.foldl (fun j f => processSelectField f j) j).limit = j.limit := by
    intro fs
    induction fs with
    | nil => intro j; rfl
    | cons f rest ih =>
      intro j
      rw [List.foldl_cons, ih, processSelectField_limit]
  rw [h]

/-- Processing one WHERE condition never touches the parsed limit. -/
theorem processCondition_limit (c : String) (i : QueryInfo) :
    (processCondition c i).limit = i.limit := by
  unfold processCondition
  dsimp only
  repeat' split
  all_goals rfl

/-- Parsing the WHERE clause never touches the parsed limit. -/
theorem parseWhereClause_limit (wc : String) (i : QueryInfo) :
    (parseWhereClause wc i).limit = i.limit := by
  unfold parseWhereClause
  have h : ∀ (cs : List String) (j : QueryInfo),
      (cs.foldl (fun j c => processCondition (goTrimSpace c) j) j).limit = j.limit := by
    intro cs
    induction cs with
    | nil => intro j; rfl
    | cons c rest ih =>
      intro j
      rw [List.foldl_cons, ih, processCondition_limit]
  rw [h]
  repeat' split
  all_goals rfl

/-- Parsing the GROUP BY clause never touches the parsed limit. -/
theorem parseGroupBy_limit (gc : String) (i : QueryInfo) :
    (parseGroupBy gc i).limit = i.limit := rfl

/-- Parsing the ORDER BY clause never touches the parsed limit. -/
theorem parseOrderBy_limit (oc : String) (i : QueryInfo) :
    (parseOrderBy oc i).limit = i.limit := by
  unfold parseOrderBy
  dsimp only
  repeat' split
  all_goals rfl

/-- The WHERE stage only ever fails with the slice fault. -/
theorem parseWhereStage_err (qo : String) (w g o l : Option Nat) (i : QueryInfo)
    (e : ParseFault) (h : parseWhereStage qo w g o l i = .error e) : e = .outOfRange := by
  unfold parseWhereStage at h
  repeat' split at h
  all_goals simp_all

/-- The WHERE stage preserves the parsed limit on success. -/
theorem parseWhereStage_ok_limit (qo : String) (w g o l : Option Nat) (i i' : QueryInfo)
    (h : parseWhereStage qo w g o l i = .ok i') : i'.limit = i.limit := by
  unfold parseWhereStage at h
  repeat' split at h
  all_goals simp_all [parseWhereClause_limit]
  subst h
  exact parseWhereClause_limit ..

/-- The GROUP BY stage only ever fails with the slice fault. -/
theorem parseGroupStage_err (qo : String) (g o l : Option Nat) (i : QueryInfo)
    (e : ParseFault) (h : parseGroupStage qo g o l i = .error e) : e = .outOfRange := by
  unfold parseGroupStage at h
  repeat' split at h
  all_goals simp_all

/-- The GROUP BY stage preserves the parsed limit on success. -/
theorem parseGroupStage_ok_limit (qo : String) (g o l : Option Nat) (i i' : QueryInfo)
    (h : parseGroupStage qo g o l i = .ok i') : i'.limit = i.limit := by
  unfold parseGroupStage at h
  repeat' split at h
  all_goals simp_all [parseGroupBy_limit]
  subst h
  exact parseGroupBy_limit ..

/-- The ORDER BY stage only ever fails with the slice fault. -/
theorem parseOrderStage_err (qo : String) (o l : Option Nat) (i : QueryInfo)
    (e : ParseFault) (h : parseOrderStage qo o l i = .error e) : e = .outOfRange := by
  unfold parseOrderStage at h
  repeat' split at h
  all_goals simp_all

/-- The ORDER BY stage preserves the parsed limit on success. -/
theorem parseOrderStage_ok_limit (qo : String) (o l : Option Nat) (i i' : QueryInfo)
    (h : parseOrderStage qo o l i = .ok i') : i'.limit = i.limit := by
  unfold parseOrderStage at h
  repeat' split at h
  all_goals simp_all [parseOrderBy_limit]
  subst h
  exact parseOrderBy_limit ..

/-- The LIMIT stage only ever fails with the slice fault. -/
theorem parseLimitStage_err (qo : String) (l : Option Nat) (i : QueryInfo)
    (e : ParseFault) (h : parseLimitStage qo l i = .error e) : e = .outOfRange := by
  unfold parseLimitStage at h
  repeat' split at h
  all_goals simp_all

/-- The clause pipeline never reports the missing-keyword parse error: once
SELECT and FROM are found, the only failures are slice faults. -/
theorem parseRest_not_missing (qo ql : String) (si fi : Nat) :
    parseRest qo ql si fi ≠ .error .missingSelectFrom := by
  unfold parseRest
  repeat' (first | split | dsimp only)
  all_goals
    first
    | (intro hc
       injection hc with hc1
       subst hc1
       first
       | exact absurd (parseWhereStage_err _ _ _ _ _ _ _ (by assumption)) (by decide)
       | exact absurd (parseGroupStage_err _ _ _ _ _ _ (by assumption)) (by decide)
       | exact absurd (parseOrderStage_err _ _ _ _ _ (by assumption)) (by decide))
    | (intro hc
       exact absurd (parseLimitStage_err _ _ _ _ hc) (by decide))
    | simp

/-- A successful run of the clause pipeline whose LIMIT token does not parse
as an integer leaves the limit at its zero default. -/
theorem parseRest_ok_limit (qo ql : String) (si fi : Nat) (info : QueryInfo)
    (h : parseRest qo ql si fi = .ok info) :
    ∀ l, findLimitIndex ql = some l →
      ∀ ls, goSlice qo (l + 7) qo.data.length = some ls →
        parseLimit (goTrimSpace ls) = none → info.limit = 0 := by
  intro l hl ls hls hpl
  unfold parseRest at h
  split at h
  · simp at h
  · dsimp only at h
    rw [hl] at h
    split at h
    · simp at h
    · split at h
      · simp at h
      · rename_i info1 heqW
        split at h
        · simp at h
        · rename_i info2 heqG
          split at h
          · simp at h
          · rename_i info3 heqO
            unfold parseLimitStage at h
            dsimp only at h
            rw [hls] at h
            dsimp only at h
            rw [hpl] at h
            injection h with h3
            subst h3
            rw [parseOrderStage_ok_limit _ _ _ _ _ heqO,
              parseGroupStage_ok_limit _ _ _ _ _ _ heqG,
              parseWhereStage_ok_limit _ _ _ _ _ _ _ heqW]
            simp [parseAggregateFields_limit, initQueryInfo]

/-- C8 (amended): the parser fails with the missing-SELECT/FROM parse error
exactly when `"select "` or `" from "` is absent from the lower-cased trimmed
query (Go reports the error when either keyword is missing, not only when
both are); for queries it does parse, a LIMIT clause whose first token fails
integer parsing leaves the limit at 0. -/
theorem parse_missing_iff_and_limit_default (query : String) :
    ((parseSQLQueryWithVariables query = .error .missingSelectFrom) ↔
      (goIndex (goToLower (goTrimSpace query)) "select " = none ∨
       goIndex (goToLower (goTrimSpace query)) " from " = none)) ∧
    (∀ info, parseSQLQueryWithVariables query = .ok info →
      ∀ l, findLimitIndex (goToLower (goTrimSpace query)) = some l →
      ∀ ls, goSlice (goTrimSpace query) (l + 7) (goTrimSpace query).data.length = some ls →
        parseLimit (goTrimSpace ls) = none → info.limit = 0) := by
  constructor
  · unfold parseSQLQueryWithVariables
    dsimp only
    cases hsel : goIndex (goToLower (goTrimSpace query)) "select " with
    | none => simp
    | some si =>
      cases hfrom : goIndex (goToLower (goTrimSpace query)) " from " with
      | none => simp
      | some fi =>
        dsimp only
        exact iff_of_false (parseRest_not_missing _ _ si fi) (by simp)
  · intro info h l hl ls hls hpl
    unfold parseSQLQueryWithVariables at h
    dsimp only at h
    cases hsel : goIndex (goToLower (goTrimSpace query)) "select " with
    | none => rw [hsel] at h; simp at h
    | some si =>
      cases hfrom : goIndex (goToLower (goTrimSpace query)) " from " with
      | none => rw [hsel, hfrom] at h; simp at h
      | some fi =>
        rw [hsel, hfrom] at h
        dsimp only at h
        exact parseRest_ok_limit _ _ _ _ _ h l hl ls hls hpl

/-- C8 counterexample: the query `select x` contains `"select "` (so the claim,
which predicts failure only when neither keyword is found, says it must
produce a plan), yet the parser fails with the missing-SELECT/FROM error
because `" from "` alone is absent. -/
theorem select_without_from_fails :
    goContains (goToLower (goTrimSpace "select x")) "select " = true ∧
    parseSQLQueryWithVariables "select x" = .error .missingSelectFrom := by
  exact ⟨by decide, rfl⟩

/-- C8 witness: the malformed `limit abc` clause leaves the parsed plan's
limit at 0 through the theorem's degradation clause. -/
theorem parse_missing_iff_and_limit_default_witness :
    (⟨"b", ["a"], "", [], "", "", 0, [], []⟩ : QueryInfo).limit = 0 ∧
    parseSQLQueryWithVariables "select a from b limit abc" =
      .ok ⟨"b", ["a"], "", [], "", "", 0, [], []⟩ :=
  ⟨(parse_missing_iff_and_limit_default "select a from b limit abc").2
      ⟨"b", ["a"], "", [], "", "", 0, [], []⟩ rfl 15 rfl "abc" rfl rfl,
    rfl⟩
